import Mathlib

/-!
Shallow embedding of `ceph_nvmeof_gateway/controllers/doc.py`: the OpenAPI
spec-generation core (type inference, explicit-type mapping, parameter
merging, schema building, response building, tag assembly, path assembly).

Python dicts are modelled as insertion-ordered association lists
(`List (String × _)`); setting an existing key keeps its position, setting a
new key appends at the end, exactly as Python dicts behave.  Python `None`
is `PyVal.none`; an absent dict key is `Option.none` at the field level.
Python exceptions (KeyError / TypeError) are modelled by `Option.none`
results.  In-place mutation of the endpoint registry performed by
`_add_param_info` is modelled by threading the updated parameter lists and
endpoints through the return values.
-/

namespace CephNvmeofDoc

/-- Python `str.lower()`, modelled character-wise (the strings it is applied
to here are ASCII method names). -/
def pyLower (s : String) : String :=
  String.mk (s.data.map Char.toLower)

/-- A Python value that can appear as a parameter default. -/
inductive PyVal where
  | none
  | bool (b : Bool)
  | int (n : Int)
  | str (s : String)
  deriving DecidableEq, Repr

/-- Python `isinstance(v, bool)`. -/
def pyIsBool : PyVal → Bool
  | .bool _ => true
  | _ => false

/-- Python `isinstance(v, int)`: in Python, `bool` is a subclass of `int`,
so a boolean value is also an instance of `int`. -/
def pyIsInt : PyVal → Bool
  | .bool _ => true
  | .int _ => true
  | _ => false

/-- A native "type marker" as passed in a parameter's `type` field: one of
the builtin classes (`str`, `int`, `bool`, `list`, `tuple`, `float`, `dict`),
a `types.GenericAlias` such as `dict[0]` (which container classes produce
under PEP 585 subscription on the repository's required Python >= 3.9), any
other class without `__class_getitem__`, or a sequence literal like `[int]`
(which is an *instance* of `list`, not the class `list` itself). -/
inductive TypeMarker where
  | str
  | int
  | bool
  | list
  | tuple
  | float
  | dict
  | genericAlias
  | other (nm : String)
  | seq (elems : List TypeMarker)

/-- `_type_to_str` (doc.py lines 90-106): maps an explicitly declared native
type marker to a schema primitive, via identity checks against the builtin
classes; everything else — the `dict` class, a generic alias, any other
class, and a sequence literal like `[int]` (not the class `list`) — falls
through to `"object"`. -/
def typeToStr : TypeMarker → String
  | .str => "string"
  | .int => "integer"
  | .bool => "boolean"
  | .list => "array"
  | .tuple => "array"
  | .float => "number"
  | .dict => "object"
  | .genericAlias => "object"
  | .other _ => "object"
  | .seq _ => "object"

/-- `param['type'][0]`: subscripting a type marker.  A sequence literal
yields its first element (an empty one raises `IndexError`).  The `dict`,
`list` and `tuple` classes support PEP 585 generic-alias subscription on the
repository's required Python >= 3.9, so e.g. `dict[0]` evaluates to the
generic alias `dict[0]` without raising.  Subscripting a generic alias again,
or a class without `__class_getitem__` (`str`, `int`, `bool`, `float`, or any
plain application class), raises `TypeError`, modelled as `Option.none`. -/
def index0 : TypeMarker → Option TypeMarker
  | .seq (x :: _) => some x
  | .dict => some .genericAlias
  | .list => some .genericAlias
  | .tuple => some .genericAlias
  | _ => Option.none

/-- `needle` is a prefix of `hay` (Python `str.startswith`). -/
def hasPre : List Char → List Char → Bool
  | [], _ => true
  | _ :: _, [] => false
  | a :: as, b :: bs => a = b && hasPre as bs

/-- `needle` occurs as a contiguous substring of `hay` (Python `in`). -/
def hasSub (needle : List Char) : List Char → Bool
  | [] => hasPre needle []
  | c :: rest => hasPre needle (c :: rest) || hasSub needle rest

/-- A parameter descriptor: a Python dict with keys `name`, `required`, and
optionally `default`, `type`, `description`, `nested_params` (absent keys are
`Option.none`; an absent `default` is distinct from a present `default: None`). -/
inductive Param where
  | mk (name : String) (required : Bool) (default : Option PyVal)
       (type : Option TypeMarker) (description : Option String)
       (nested_params : Option (List Param))

def Param.name : Param → String
  | .mk n _ _ _ _ _ => n

def Param.required : Param → Bool
  | .mk _ r _ _ _ _ => r

def Param.default : Param → Option PyVal
  | .mk _ _ d _ _ _ => d

def Param.type : Param → Option TypeMarker
  | .mk _ _ _ t _ _ => t

def Param.description : Param → Option String
  | .mk _ _ _ _ d _ => d

def Param.nested_params : Param → Option (List Param)
  | .mk _ _ _ _ _ np => np

/-- An explicit parameter override from `@EndpointDoc` metadata
(`func.doc_info['parameters']`): always carries `name`, `type`,
`description`, `required` and the `nested` flag; `default` and
`nested_params` keys may be absent. -/
inductive PInfo where
  | mk (name : String) (type : TypeMarker) (description : String)
       (required : Bool) (nested : Bool) (default : Option PyVal)
       (nested_params : Option (List PInfo))

def PInfo.name : PInfo → String
  | .mk n _ _ _ _ _ _ => n

def PInfo.nested : PInfo → Bool
  | .mk _ _ _ _ b _ _ => b

def PInfo.nested_params : PInfo → Option (List PInfo)
  | .mk _ _ _ _ _ _ np => np

/-- `_gen_type` (doc.py lines 66-88): infers a schema type from the parameter
name and default value.  `def_value = param['default'] if 'default' in param
else None`; the name-based rules run first, then `isinstance` checks on the
default. -/
def genType (p : Param) : String :=
  let def_value : PyVal := p.default.getD PyVal.none
  if hasPre "is_".toList p.name.toList then "boolean"
  else if hasSub "size".toList p.name.toList then "integer"
  else if hasSub "count".toList p.name.toList then "integer"
  else if hasSub "num".toList p.name.toList then "integer"
  else if pyIsBool def_value then "boolean"
  else if pyIsInt def_value then "integer"
  else "string"

/-- The update performed on a matching base parameter by a non-nested override
(doc.py lines 128-133): `type` and `description` are overwritten
unconditionally; `nested_params` is overwritten only when the override carries
its own (already recursively merged) nested params. -/
def setFromInfo (q : Param) (t : TypeMarker) (d : String)
    (npsRes : Option (List Param)) : Param :=
  match q with
  | .mk nm rq df _ _ np =>
    .mk nm rq df (some t) (some d)
      (match npsRes with
       | some l => some l
       | Option.none => np)

/-- `_add_param_info` (doc.py lines 108-147).  In Python the base list is
mutated in place; here the updated list is returned.  A non-nested override
overwrites every base parameter with the same name; a nested override is
appended as a fresh parameter.  Nested-params of an override are merged
against an empty base. -/
def addParamInfo : List Param → List PInfo → List Param
  | parameters, [] => parameters
  | parameters, .mk nm t d rq nested df npsO :: rest =>
    let npsRes : Option (List Param) :=
      match npsO with
      | some nps => some (addParamInfo [] nps)
      | Option.none => Option.none
    if nested then
      addParamInfo (parameters ++ [.mk nm rq df (some t) (some d) npsRes]) rest
    else
      addParamInfo
        (parameters.map fun q => if nm = q.name then setFromInfo q t d npsRes else q)
        rest
termination_by _ pi => sizeOf pi

/-- A JSON-like value: the shape of the generated document fragments.
Objects are insertion-ordered association lists, like Python dicts. -/
inductive J where
  | null
  | s (v : String)
  | b (v : Bool)
  | i (v : Int)
  | arr (xs : List J)
  | obj (kvs : List (String × J))

/-- A Python default value rendered into the document. -/
def pyToJ : PyVal → J
  | .none => J.null
  | .bool v => J.b v
  | .int n => J.i n
  | .str v => J.s v

/-- Python `d[k] = v` on a dict: replaces the value at the first (only)
occurrence of `k` keeping its position, or appends `(k, v)` at the end. -/
def dictSet {α : Type} (k : String) (v : α) : List (String × α) → List (String × α)
  | [] => [(k, v)]
  | (k', v') :: rest => if k' = k then (k, v) :: rest else (k', v') :: dictSet k v rest

/-- Python `d[k]` / `d.get(k)` on a dict. -/
def dictGet {α : Type} (k : String) : List (String × α) → Option α
  | [] => Option.none
  | (k', v') :: rest => if k' = k then some v' else dictGet k rest

/-- The keys of a dict, in insertion order. -/
def keysOf {α : Type} (d : List (String × α)) : List String :=
  d.map Prod.fst

/-- How many entries of a dict carry the key `k` (1 or 0 for real dicts). -/
def countKey {α : Type} (k : String) (d : List (String × α)) : Nat :=
  (d.filter fun kv => kv.1 = k).length

/-- The names of the parameters flagged `required`, in input order
(doc.py lines 162-164). -/
def requiredNames (ps : List Param) : List String :=
  (ps.filter fun p => p.required).map Param.name

/-- Modelled from the spec: `Schema(...).as_dict()` from the controllers
framework module (`Schema`, `SchemaType` are imported by doc.py but their
definitions are not part of this source tree).  Per the spec's Schema Builder
section, the output is `{type, properties: {name→fragment}, required:
[names...]}`, "or with items instead of properties for array-shaped results",
where the array-shaped result wraps its fields as
`{type: array, items: {type: object, properties: {...}}}`; the `required`
list is included only when non-empty. -/
def schemaDict (ty : String) (props : List (String × J)) (req : List String) :
    List (String × J) :=
  if ty = "array" then
    [("type", J.s "array"),
     ("items", J.obj ([("type", J.s "object"), ("properties", J.obj props)] ++
       (if req = [] then [] else [("required", J.arr (req.map J.s))])))]
  else
    [("type", J.s ty), ("properties", J.obj props)] ++
      (if req = [] then [] else [("required", J.arr (req.map J.s))])

/-- The `properties` dict built by `_gen_schema_for_content`
(doc.py lines 162-183), one fragment per parameter: explicit type via
`_type_to_str` (recursing into `nested_params` as dict-in-array or
dict-in-dict, or treating an explicit-object marker as array-of-element via
`param['type'][0]`), otherwise inferred via `_gen_type`; then `description`
and `default` are copied in when their keys are present.  `Option.none`
models the `TypeError` raised by subscripting a non-sequence marker. -/
def genSchemaProps : List Param → Option (List (String × J))
  | [] => some []
  | .mk nm rq df ty ds npsO :: rest =>
    let base : Option (List (String × J)) :=
      match ty, npsO with
      | some t, some nps =>
        if typeToStr t = "array" then
          match genSchemaProps nps with
          | some inner =>
            some [("type", J.s (typeToStr t)),
                  ("items", J.obj (schemaDict "object" inner (requiredNames nps)))]
          | Option.none => Option.none
        else
          match genSchemaProps nps with
          | some inner => some (schemaDict "object" inner (requiredNames nps))
          | Option.none => Option.none
      | some t, Option.none =>
        if typeToStr t = "object" then
          match index0 t with
          | some el =>
            some [("type", J.s "array"), ("items", J.obj [("type", J.s (typeToStr el))])]
          | Option.none => Option.none
        else some [("type", J.s (typeToStr t))]
      | Option.none, _ =>
        some [("type", J.s (genType (.mk nm rq df ty ds npsO)))]
    match base with
    | Option.none => Option.none
    | some kvs =>
      let kvs1 := match ds with
        | some d => dictSet "description" (J.s d) kvs
        | Option.none => kvs
      let kvs2 := match df with
        | some v => dictSet "default" (pyToJ v) kvs1
        | Option.none => kvs1
      match genSchemaProps rest with
      | some restProps => some ((nm, J.obj kvs2) :: restProps)
      | Option.none => Option.none
termination_by ps => sizeOf ps

/-- The input of `_gen_schema_for_content`: either a plain parameter list or a
`SchemaInput` object carrying its own top-level schema type. -/
inductive ContentParams where
  | plain (ps : List Param)
  | schemaInput (ty : String) (ps : List Param)

/-- `_gen_schema_for_content` (doc.py lines 149-188): the schema type defaults
to object unless the input is a `SchemaInput`; the fragment dict for each
parameter is collected into `properties` and the result packaged by
`Schema(...).as_dict()`. -/
def genSchemaForContent : ContentParams → Option J
  | .plain ps =>
    match genSchemaProps ps with
    | some props => some (J.obj (schemaDict "object" props (requiredNames ps)))
    | Option.none => Option.none
  | .schemaInput ty ps =>
    match genSchemaProps ps with
    | some props => some (J.obj (schemaDict ty props (requiredNames ps)))
    | Option.none => Option.none

/-- The single OpenAPI parameter entry built by `_gen_params` for one
parameter descriptor (doc.py lines 232-252): note that for a non-required
parameter the code reads `param['default']` with a plain subscript, so an
absent `default` key raises `KeyError` (modelled as `Option.none`), while a
present `default: None` yields `allowEmptyValue`. -/
def genParamOne (p : Param) (location : String) : Option J :=
  let ty : String :=
    match p.type with
    | some t => typeToStr t
    | Option.none => genType p
  let res0 : List (String × J) :=
    [("name", J.s p.name), ("in", J.s location), ("schema", J.obj [("type", J.s ty)])]
  let res1 : List (String × J) :=
    match p.description with
    | some d => if d ≠ "" then res0 ++ [("description", J.s d)] else res0
    | Option.none => res0
  if p.required then some (J.obj (res1 ++ [("required", J.b true)]))
  else
    match p.default with
    | Option.none => Option.none
    | some v =>
      if v = PyVal.none then some (J.obj (res1 ++ [("allowEmptyValue", J.b true)]))
      else some (J.obj (res1 ++ [("default", pyToJ v)]))

/-- `_gen_params` (doc.py lines 229-254): one entry per parameter, in order;
a raise from any entry propagates. -/
def genParams : List Param → String → Option (List J)
  | [], _ => some []
  | p :: rest, location =>
    match genParamOne p location with
    | some j =>
      match genParams rest location with
      | some l => some (j :: l)
      | Option.none => Option.none
    | Option.none => Option.none

/-- The generic `content` object `{'application/json': {'type': 'object'}}`
attached to the method-conditional success responses. -/
def genericContent : J :=
  J.obj [("application/json", J.obj [("type", J.s "object")])]

/-- The baseline responses always present (doc.py lines 192-201). -/
def respBase : List (String × J) :=
  [("400", J.obj [("description",
      J.s "Operation exception. Please check the response body for details.")]),
   ("500", J.obj [("description",
      J.s "Unexpected error. Please check the response body for the stack trace.")])]

/-- The method-conditional part of `_gen_responses` (doc.py lines 192-217),
before any explicit per-status overrides are applied. -/
def genResponsesBase (method : String) : List (String × J) :=
  let m := pyLower method
  let r0 := respBase
  let r1 := if m = "get" then
      dictSet "200" (J.obj [("description", J.s "OK"), ("content", genericContent)]) r0
    else r0
  let r2 := if m = "post" then
      dictSet "201" (J.obj [("description", J.s "Resource created."),
        ("content", genericContent)]) r1
    else r1
  let r3 := if m = "put" then
      dictSet "200" (J.obj [("description", J.s "Resource updated."),
        ("content", genericContent)]) r2
    else r2
  let r4 := if m = "delete" then
      dictSet "204" (J.obj [("description", J.s "Resource deleted."),
        ("content", genericContent)]) r3
    else r3
  if m = "post" ∨ m = "put" ∨ m = "delete" then
    dictSet "202" (J.obj [("description",
      J.s "Operation is still executing. Please check the task queue."),
      ("content", genericContent)]) r4
  else r4

/-- The override loop of `_gen_responses` (doc.py lines 219-225): an override
for a status code already in the map replaces that entry's `content` with a
schema built from the override's field list; overrides for absent codes are
skipped without even building their schema. -/
def respOverlay : List (String × ContentParams) → List (String × J) →
    Option (List (String × J))
  | [], resp => some resp
  | (code, body) :: rest, resp =>
    match dictGet code resp with
    | some (J.obj kvs) =>
      match genSchemaForContent body with
      | some sch =>
        respOverlay rest (dictSet code
          (J.obj (dictSet "content"
            (J.obj [("application/json", J.obj [("schema", sch)])]) kvs)) resp)
      | Option.none => Option.none
    | some _ => Option.none
    | Option.none => respOverlay rest resp

/-- `_gen_responses` (doc.py lines 190-227); `resp_object = []` models both
the `None` default and an empty override dict (both falsy). -/
def genResponses (method : String) (resp_object : List (String × ContentParams)) :
    Option (List (String × J)) :=
  respOverlay resp_object (genResponsesBase method)

/-- `ctrl.doc_info`: tag metadata attached to a controller class. -/
structure CtrlDocInfo where
  tag : String
  tag_descr : String

/-- A controller class: its `__name__` and optional `doc_info` attribute. -/
structure Ctrl where
  name : String
  doc_info : Option CtrlDocInfo

/-- `func.doc_info`: metadata attached to a handler by `@EndpointDoc`. -/
structure FuncDocInfo where
  summary : String
  tag : String
  response : List (String × ContentParams)
  parameters : List PInfo

/-- A handler function: its `__doc__`, optional `doc_info`, and whether the
`body_params_schema` attribute is present (marshmallow schema already
processed). -/
structure Func where
  doc : Option String
  doc_info : Option FuncDocInfo
  body_params_schema : Bool

/-- An endpoint descriptor from `ENDPOINT_MAP`. -/
structure Endpoint where
  method : String
  ctrl : Ctrl
  func : Func
  path_params : List Param
  query_params : List Param
  body_params : List Param
  is_backend_api : Bool

/-- `_get_tag` (doc.py lines 54-64): endpoint-level non-empty tag override,
else controller-level non-empty tag override, else the controller name. -/
def getTag (e : Endpoint) : String :=
  let fromCtrl : String :=
    match e.ctrl.doc_info with
    | some cd => if cd.tag ≠ "" then cd.tag else e.ctrl.name
    | Option.none => e.ctrl.name
  match e.func.doc_info with
  | some fd => if fd.tag ≠ "" then fd.tag else fromCtrl
  | Option.none => fromCtrl

/-- Stable insertion into a sorted list: `x` goes before the first element it
compares `le` to, so equal keys keep their original relative order. -/
def insertSorted {α : Type} (le : α → α → Bool) (x : α) : List α → List α
  | [] => [x]
  | y :: ys => if le x y then x :: y :: ys else y :: insertSorted le x ys

/-- Python's stable `sorted` with a key-based comparison. -/
def sortBy {α : Type} (le : α → α → Bool) (l : List α) : List α :=
  l.foldr (insertSorted le) []

/-- Codepoint-wise lexicographic string comparison (Python string `<=`). -/
def charsLe : List Char → List Char → Bool
  | [], _ => true
  | _ :: _, [] => false
  | a :: as, b :: bs => if a = b then charsLe as bs else decide (a < b)

def strLe (a b : String) : Bool :=
  charsLe a.toList b.toList

/-- `method_order = ['get', 'post', 'put', 'delete']` (doc.py line 259). -/
def methodOrder : List String :=
  ["get", "post", "put", "delete"]

/-- `list.index` (doc.py line 267); a method outside `method_order` would
raise `ValueError` in Python (the registry invariant restricts methods to
GET/POST/PUT/DELETE). -/
def idxOf (s : String) : List String → Nat
  | [] => 0
  | x :: xs => if x = s then 0 else idxOf s xs + 1

/-- The sort key comparison for endpoints within a path (doc.py lines 266-267). -/
def methodLe (a b : Endpoint) : Bool :=
  decide (idxOf (pyLower a.method) methodOrder ≤ idxOf (pyLower b.method) methodOrder)

/-- Duck-typing of an override dict as a parameter dict, used when the
handler's body params were already described by a marshmallow schema
(doc.py line 308): the override dicts carry the same keys a parameter dict
has (`type` and `description` always present), plus an extra `nested` key
that `_gen_schema_for_content` never reads. -/
def pinfoListToParams : List PInfo → List Param
  | [] => []
  | .mk nm t d rq _ df npsO :: rest =>
    Param.mk nm rq df (some t) (some d)
      (match npsO with
       | some l => some (pinfoListToParams l)
       | Option.none => Option.none) :: pinfoListToParams rest
termination_by pis => sizeOf pis

/-- `func.__doc__` rendered into the operation object. -/
def optStrJ : Option String → J
  | some v => J.s v
  | Option.none => J.null

/-- The request-body wrapper built at doc.py lines 312-315 and 319-322. -/
def reqBodyJ (sch : J) : J :=
  J.obj [("content", J.obj [("application/json", J.obj [("schema", sch)])])]

/-- The parameter assembly step for one location (doc.py lines 285-293):
when the list is non-empty, `_add_param_info` mutates it in place and
`_gen_params` renders it; returns the rendered entries together with the
mutated list now held by the endpoint. -/
def stepParams (ps : List Param) (p_info : List PInfo) (location : String) :
    Option (List J × List Param) :=
  if ps.isEmpty then some ([], ps)
  else
    let merged := addParamInfo ps p_info
    match genParams merged location with
    | some l => some (l, merged)
    | Option.none => Option.none

/-- `summary` as resolved at doc.py lines 276-281: starts empty, replaced by
a truthy (non-empty) `doc_info['summary']`. -/
def docSummary (f : Func) : String :=
  match f.doc_info with
  | some d => if d.summary ≠ "" then d.summary else ""
  | Option.none => ""

/-- `resp` as resolved at doc.py lines 277-282 (`[]` models the falsy `{}`). -/
def docResponse (f : Func) : List (String × ContentParams) :=
  match f.doc_info with
  | some d => d.response
  | Option.none => []

/-- `p_info` as resolved at doc.py lines 278-283. -/
def docParams (f : Func) : List PInfo :=
  match f.doc_info with
  | some d => d.parameters
  | Option.none => []

/-- The body of the per-endpoint loop of `_gen_paths` (doc.py lines 268-322):
builds the operation object for one endpoint and returns it together with the
endpoint as left after the in-place mutations of its parameter lists.
`methods[method.lower()]` is assigned at line 295 and the very same dict
object is then extended with `summary` and `requestBody`; building the final
object before insertion is equivalent since nothing reads the dict in
between. -/
def procOne (e : Endpoint) : Option (J × Endpoint) :=
  let summary : String := docSummary e.func
  let resp : List (String × ContentParams) := docResponse e.func
  let p_info : List PInfo := docParams e.func
  match stepParams e.path_params p_info "path" with
  | Option.none => Option.none
  | some (pathJ, ppNew) =>
    match stepParams e.query_params p_info "query" with
    | Option.none => Option.none
    | some (queryJ, qpNew) =>
      match genResponses e.method resp with
      | Option.none => Option.none
      | some responses =>
        let op0 : List (String × J) :=
          [("tags", J.arr [J.s (getTag e)]),
           ("description", optStrJ e.func.doc),
           ("parameters", J.arr (pathJ ++ queryJ)),
           ("responses", J.obj responses)]
        let op1 := if summary ≠ "" then dictSet "summary" (J.s summary) op0 else op0
        if ["post", "put"].contains (pyLower e.method) then
          let bodyStep : Option (List (String × J) × List Param) :=
            if !e.body_params.isEmpty then
              if e.func.body_params_schema then
                match genSchemaForContent (.plain (pinfoListToParams p_info)) with
                | some sch => some (dictSet "requestBody" (reqBodyJ sch) op1, e.body_params)
                | Option.none => Option.none
              else
                let merged := addParamInfo e.body_params p_info
                match genSchemaForContent (.plain merged) with
                | some sch => some (dictSet "requestBody" (reqBodyJ sch) op1, merged)
                | Option.none => Option.none
            else some (op1, e.body_params)
          match bodyStep with
          | Option.none => Option.none
          | some (op2, bpNew) =>
            if !qpNew.isEmpty then
              let qmerged := addParamInfo qpNew p_info
              match genSchemaForContent (.plain qmerged) with
              | some sch =>
                some (J.obj (dictSet "requestBody" (reqBodyJ sch) op2),
                  { e with path_params := ppNew, query_params := qmerged,
                           body_params := bpNew })
              | Option.none => Option.none
            else
              some (J.obj op2,
                { e with path_params := ppNew, query_params := qpNew,
                         body_params := bpNew })
        else
          some (J.obj op1,
            { e with path_params := ppNew, query_params := qpNew })

/-- The endpoint loop of `_gen_paths` (doc.py lines 268-322): endpoints are
processed in method order; hitting an internal-only endpoint with the flag
unset sets `skip` and breaks out, leaving the remaining endpoints untouched
(the ones already processed keep their mutations).  Returns the methods dict,
the skip flag, and the endpoints as left after processing. -/
def procEndpoints (all_endpoints : Bool) :
    List Endpoint → List (String × J) → Option (List (String × J) × Bool × List Endpoint)
  | [], methods => some (methods, false, [])
  | e :: rest, methods =>
    if e.is_backend_api && !all_endpoints then some (methods, true, e :: rest)
    else
      match procOne e with
      | Option.none => Option.none
      | some (op, e') =>
        match procEndpoints all_endpoints rest (dictSet (pyLower e.method) op methods) with
        | Option.none => Option.none
        | some (ms, sk, rest') => some (ms, sk, e' :: rest')

/-- The path loop of `_gen_paths` (doc.py lines 261-326) over the
already-sorted list of registry items: a skipped path contributes nothing to
the output; the updated registry is returned alongside (endpoint lists in the
method-sorted processing order — in Python the endpoint objects are mutated
in place, so the registry holds the same objects). -/
def genPathsGo (all_endpoints : Bool) :
    List (String × List Endpoint) →
    Option (List (String × J) × List (String × List Endpoint))
  | [] => some ([], [])
  | (path, endpoints) :: rest =>
    let endpoint_list := sortBy methodLe endpoints
    match procEndpoints all_endpoints endpoint_list [] with
    | Option.none => Option.none
    | some (methods, skip, eps') =>
      match genPathsGo all_endpoints rest with
      | Option.none => Option.none
      | some (paths, rest') =>
        some ((if skip then paths else (path, J.obj methods) :: paths),
              (path, eps') :: rest')

/-- `_gen_paths` (doc.py lines 256-327): registry items sorted by path
ascending, then the path loop.  Returns the generated paths dict together
with the registry as left after the in-place parameter-list mutations. -/
def genPaths (all_endpoints : Bool) (reg : List (String × List Endpoint)) :
    Option (List (String × J) × List (String × List Endpoint)) :=
  genPathsGo all_endpoints (sortBy (fun a b => strLe a.1 b.1) reg)

/-- `NO_DESCRIPTION_AVAILABLE` (doc.py line 8). -/
def noDescriptionAvailable : String :=
  "*No description available*"

/-- The tag name contributed by a controller (doc.py lines 40-44): the
non-empty `doc_info['tag']` override, else the controller name. -/
def tagEntryName (c : Ctrl) : String :=
  match c.doc_info with
  | some d => if d.tag ≠ "" then d.tag else c.name
  | Option.none => c.name

/-- The tag description contributed by a controller (doc.py lines 41-45). -/
def tagEntryDescr (c : Ctrl) : String :=
  match c.doc_info with
  | some d => d.tag_descr
  | Option.none => ""

/-- The `tag_map` merge loop of `_gen_tags` (doc.py lines 38-47): a
controller's description is stored when the tag name is new or when the
stored description is empty. -/
def buildTagMap : List Ctrl → List (String × String) → List (String × String)
  | [], m => m
  | c :: cs, m =>
    let n := tagEntryName c
    let m' :=
      match dictGet n m with
      | Option.none => dictSet n (tagEntryDescr c) m
      | some d => if d = "" then dictSet n (tagEntryDescr c) m else m
    buildTagMap cs m'

/-- `_gen_tags` (doc.py lines 20-52) from the materialized `list_of_ctrl`
onwards: `list_of_ctrl` is a Python set, whose iteration order is modelled by
the order of the input list (the claim of interest is exactly
order-independence).  Each tag is a `{'name', 'description'}` dict, modelled
as a (name, description) pair; the list is sorted by name. -/
def genTags (list_of_ctrl : List Ctrl) : List (String × String) :=
  let m := buildTagMap list_of_ctrl []
  let tags := m.map fun kv =>
    (kv.1, if kv.2 ≠ "" then kv.2 else noDescriptionAvailable)
  sortBy (fun a b => strLe a.1 b.1) tags

/-- A concrete POST endpoint with one required query parameter and one
required body parameter and no metadata, used to witness the dual
request-body assembly. -/
def c2Endpoint : Endpoint :=
  { method := "POST", ctrl := ⟨"C", Option.none⟩,
    func := ⟨Option.none, Option.none, false⟩,
    path_params := [],
    query_params := [Param.mk "q" true Option.none Option.none Option.none Option.none],
    body_params := [Param.mk "b" true Option.none Option.none Option.none Option.none],
    is_backend_api := false }

/-- Concrete registry for the path-filtering claim: one path with a public
GET endpoint and an internal-only POST endpoint. -/
def c3Get : Endpoint :=
  { method := "GET", ctrl := ⟨"C", Option.none⟩,
    func := ⟨Option.none, Option.none, false⟩,
    path_params := [], query_params := [], body_params := [],
    is_backend_api := false }

def c3Post : Endpoint :=
  { method := "POST", ctrl := ⟨"C", Option.none⟩,
    func := ⟨Option.none, Option.none, false⟩,
    path_params := [], query_params := [], body_params := [],
    is_backend_api := true }

def c3Reg : List (String × List Endpoint) :=
  [("/x", [c3Get, c3Post])]

/-- Concrete input for the frame-effect claim: one GET endpoint with a
required path parameter and a nested parameter override in its metadata. -/
def c1Param : Param := .mk "p" true Option.none Option.none Option.none Option.none

def c1Nested : PInfo := .mk "n" .str "nested field" true true Option.none Option.none

def c1Endpoint : Endpoint :=
  { method := "GET", ctrl := ⟨"C", Option.none⟩,
    func := ⟨Option.none, some ⟨"", "", [], [c1Nested]⟩, false⟩,
    path_params := [c1Param], query_params := [], body_params := [],
    is_backend_api := false }

def c1Reg : List (String × List Endpoint) := [("/p", [c1Endpoint])]

/-- First spec-generation call on the registry. -/
def c1Run1 : Option (List (String × J) × List (String × List Endpoint)) :=
  genPaths false c1Reg

/-- The registry as left by the first call (the in-place mutations). -/
def c1Reg1 : List (String × List Endpoint) :=
  (c1Run1.map Prod.snd).getD []

/-- Second spec-generation call, on the mutated registry. -/
def c1Run2 : Option (List (String × J) × List (String × List Endpoint)) :=
  genPaths false c1Reg1

def c1Doc1 : List (String × J) := (c1Run1.map Prod.fst).getD []

def c1Doc2 : List (String × J) := (c1Run2.map Prod.fst).getD []

/-- The number of entries in the `parameters` array of one operation of a
generated paths map. -/
def opParamsLen (ps : List (String × J)) (path m : String) : Nat :=
  match dictGet path ps with
  | some (J.obj ms) =>
    (match dictGet m ms with
     | some (J.obj op) =>
       (match dictGet "parameters" op with
        | some (J.arr l) => l.length
        | _ => 0)
     | _ => 0)
  | _ => 0

/-- The length of the first endpoint's `path_params` list at a path of a
registry. -/
def regPathParamsLen (reg : List (String × List Endpoint)) (path : String) : Nat :=
  match dictGet path reg with
  | some (e :: _) => e.path_params.length
  | _ => 0

/-!  ## Theorems  -/

/-- Unfolding equation: a nested override appends a synthesized parameter. -/
theorem addParamInfo_cons_nested (ps : List Param) (nm : String) (t : TypeMarker)
    (d : String) (rq : Bool) (df : Option PyVal) (npsO : Option (List PInfo))
    (rest : List PInfo) :
    addParamInfo ps (.mk nm t d rq true df npsO :: rest) =
      addParamInfo (ps ++ [.mk nm rq df (some t) (some d)
        (npsO.map fun nps => addParamInfo [] nps)]) rest := by
  cases npsO <;> simp [addParamInfo]

/-- Unfolding equation: a non-nested override maps over the base list. -/
theorem addParamInfo_cons_plain (ps : List Param) (nm : String) (t : TypeMarker)
    (d : String) (rq : Bool) (df : Option PyVal) (npsO : Option (List PInfo))
    (rest : List PInfo) :
    addParamInfo ps (.mk nm t d rq false df npsO :: rest) =
      addParamInfo (ps.map fun q => if nm = q.name then
        setFromInfo q t d (npsO.map fun nps => addParamInfo [] nps) else q) rest := by
  cases npsO <;> simp [addParamInfo]

/-- The merger never shrinks the base list. -/
theorem addParamInfo_length (pis : List PInfo) : ∀ ps : List Param,
    ps.length ≤ (addParamInfo ps pis).length := by
  induction pis with
  | nil => intro ps; simp [addParamInfo]
  | cons p rest ih =>
    intro ps
    cases p with
    | mk nm t d rq nested df npsO =>
      cases nested
      · rw [addParamInfo_cons_plain]
        have h := ih (ps.map fun q => if nm = q.name then
          setFromInfo q t d (npsO.map fun nps => addParamInfo [] nps) else q)
        simpa using h
      · rw [addParamInfo_cons_nested]
        have h := ih (ps ++ [Param.mk nm rq df (some t) (some d)
          (npsO.map fun nps => addParamInfo [] nps)])
        simp at h
        omega

/-- The merger keeps a non-empty base list non-empty. -/
theorem addParamInfo_isEmpty_false (ps : List Param) (pis : List PInfo)
    (h : ps.isEmpty = false) : (addParamInfo ps pis).isEmpty = false := by
  have h1 := addParamInfo_length pis ps
  cases ps with
  | nil => simp at h
  | cons a as =>
    cases hres : addParamInfo (a :: as) pis with
    | nil => rw [hres] at h1; simp at h1
    | cons b bs => rfl

/-- Setting a key then reading it back. -/
theorem dictGet_dictSet {α : Type} (k : String) (v : α) (d : List (String × α)) :
    dictGet k (dictSet k v d) = some v := by
  induction d with
  | nil => simp [dictGet, dictSet]
  | cons kv rest ih =>
    obtain ⟨k', v'⟩ := kv
    by_cases hk : k' = k
    · subst hk; simp [dictGet, dictSet]
    · simp [dictGet, dictSet, hk, ih]

/-- One step of the key count. -/
theorem countKey_cons {α : Type} (k k' : String) (v' : α) (rest : List (String × α)) :
    countKey k ((k', v') :: rest) = (if k' = k then 1 else 0) + countKey k rest := by
  by_cases hk : k' = k <;> simp [countKey, List.filter_cons, hk, Nat.add_comm]

/-- After a set, the key occurs once if it was absent, else as often as
before (for a real dict: exactly once either way). -/
theorem countKey_dictSet {α : Type} (k : String) (v : α) (d : List (String × α)) :
    countKey k (dictSet k v d) =
      if countKey k d = 0 then 1 else countKey k d := by
  induction d with
  | nil => simp [countKey, dictSet]
  | cons kv rest ih =>
    obtain ⟨k', v'⟩ := kv
    by_cases hk : k' = k
    · subst hk
      rw [show dictSet k' v ((k', v') :: rest) = (k', v) :: rest from by
        simp [dictSet]]
      rw [countKey_cons, countKey_cons]
      simp
    · rw [show dictSet k v ((k', v') :: rest) = (k', v') :: dictSet k v rest from by
        simp [dictSet, hk]]
      rw [countKey_cons, countKey_cons, ih]
      simp [hk]

/-- Setting a different key does not change a key's occurrence count. -/
theorem countKey_dictSet_other {α : Type} (k k' : String) (hkk : k ≠ k') (v : α)
    (d : List (String × α)) :
    countKey k (dictSet k' v d) = countKey k d := by
  induction d with
  | nil => simp [countKey, dictSet, Ne.symm hkk]
  | cons kv rest ih =>
    obtain ⟨k'', v''⟩ := kv
    by_cases hk : k'' = k'
    · rw [hk]
      rw [show dictSet k' v ((k', v'') :: rest) = (k', v) :: rest from by
        simp [dictSet]]
      rw [countKey_cons, countKey_cons]
    · rw [show dictSet k' v ((k'', v'') :: rest) = (k'', v'') :: dictSet k' v rest from by
        simp [dictSet, hk]]
      rw [countKey_cons, countKey_cons, ih]

/-- C4: `_gen_type` applies its rules in the fixed priority order: name starts
with `is_` → boolean; name contains `size` → integer; name contains `count` →
integer; name contains `num` → integer; boolean default → boolean; integer
default → integer; otherwise string.  In particular a name starting with
`is_` infers boolean regardless of the default (so `is_count` is boolean, not
integer), and a boolean default infers boolean even though Python booleans
are also instances of `int`. -/
theorem genType_priority :
    (∀ p : Param, hasPre "is_".toList p.name.toList = true →
      genType p = "boolean") ∧
    (∀ rq df ty ds np, genType (.mk "is_count" rq df ty ds np) = "boolean") ∧
    (∀ p : Param, hasPre "is_".toList p.name.toList = false →
      hasSub "size".toList p.name.toList = true → genType p = "integer") ∧
    (∀ p : Param, hasPre "is_".toList p.name.toList = false →
      hasSub "size".toList p.name.toList = false →
      hasSub "count".toList p.name.toList = true → genType p = "integer") ∧
    (∀ p : Param, hasPre "is_".toList p.name.toList = false →
      hasSub "size".toList p.name.toList = false →
      hasSub "count".toList p.name.toList = false →
      hasSub "num".toList p.name.toList = true → genType p = "integer") ∧
    (∀ (p : Param) (b : Bool), hasPre "is_".toList p.name.toList = false →
      hasSub "size".toList p.name.toList = false →
      hasSub "count".toList p.name.toList = false →
      hasSub "num".toList p.name.toList = false →
      p.default = some (PyVal.bool b) →
      genType p = "boolean" ∧ pyIsInt (PyVal.bool b) = true) ∧
    (∀ p : Param, hasPre "is_".toList p.name.toList = false →
      hasSub "size".toList p.name.toList = false →
      hasSub "count".toList p.name.toList = false →
      hasSub "num".toList p.name.toList = false →
      pyIsBool (p.default.getD PyVal.none) = false →
      pyIsInt (p.default.getD PyVal.none) = true → genType p = "integer") ∧
    (∀ p : Param, hasPre "is_".toList p.name.toList = false →
      hasSub "size".toList p.name.toList = false →
      hasSub "count".toList p.name.toList = false →
      hasSub "num".toList p.name.toList = false →
      pyIsBool (p.default.getD PyVal.none) = false →
      pyIsInt (p.default.getD PyVal.none) = false → genType p = "string") := by
  have A : ∀ p : Param, hasPre "is_".toList p.name.toList = true →
      genType p = "boolean" := by
    intro p h; simp_all [genType]
  refine ⟨A, ?_, ?_, ?_, ?_, ?_, ?_, ?_⟩
  · intro rq df ty ds np
    exact A (.mk "is_count" rq df ty ds np)
      (show hasPre "is_".toList "is_count".toList = true from by decide)
  · intro p h1 h2; simp_all [genType]
  · intro p h1 h2 h3; simp_all [genType]
  · intro p h1 h2 h3 h4; simp_all [genType]
  · intro p b h1 h2 h3 h4 h5
    refine ⟨?_, rfl⟩
    simp_all [genType, pyIsBool]
  · intro p h1 h2 h3 h4 h5 h6; simp_all [genType]
  · intro p h1 h2 h3 h4 h5 h6; simp_all [genType]

/-- Witness for C4 at the inputs named by the spec: `is_count` with an integer
default is boolean, `page_size` with no default is integer, a boolean default
is boolean, `label` with a string default is string. -/
theorem genType_priority_witness :
    genType (.mk "is_count" false (some (PyVal.int 3))
      Option.none Option.none Option.none) = "boolean" ∧
    genType (.mk "page_size" false Option.none
      Option.none Option.none Option.none) = "integer" ∧
    genType (.mk "flag" false (some (PyVal.bool true))
      Option.none Option.none Option.none) = "boolean" ∧
    genType (.mk "label" false (some (PyVal.str "x"))
      Option.none Option.none Option.none) = "string" :=
  ⟨genType_priority.2.1 false (some (PyVal.int 3)) Option.none Option.none Option.none,
   genType_priority.2.2.1
     (.mk "page_size" false Option.none Option.none Option.none Option.none)
     (by decide) (by decide),
   (genType_priority.2.2.2.2.2.1
     (.mk "flag" false (some (PyVal.bool true)) Option.none Option.none Option.none)
     true (by decide) (by decide) (by decide) (by decide) rfl).1,
   genType_priority.2.2.2.2.2.2.2
     (.mk "label" false (some (PyVal.str "x")) Option.none Option.none Option.none)
     (by decide) (by decide) (by decide) (by decide) rfl rfl⟩

/-- C8: `_type_to_str` is a total deterministic map onto the six schema
primitives: str→string, int→integer, bool→boolean, list/tuple→array,
float→number, and every other marker→object, without error. -/
theorem typeToStr_total :
    typeToStr .str = "string" ∧ typeToStr .int = "integer" ∧
    typeToStr .bool = "boolean" ∧ typeToStr .list = "array" ∧
    typeToStr .tuple = "array" ∧ typeToStr .float = "number" ∧
    (∀ t, typeToStr t = "string" ∨ typeToStr t = "integer" ∨
      typeToStr t = "boolean" ∨ typeToStr t = "array" ∨
      typeToStr t = "number" ∨ typeToStr t = "object") ∧
    (∀ t, t ≠ .str → t ≠ .int → t ≠ .bool → t ≠ .list → t ≠ .tuple →
      t ≠ .float → typeToStr t = "object") := by
  refine ⟨rfl, rfl, rfl, rfl, rfl, rfl, ?_, ?_⟩
  · intro t; cases t <;> simp [typeToStr]
  · intro t h1 h2 h3 h4 h5 h6
    cases t <;> first
      | rfl
      | exact absurd rfl h1
      | exact absurd rfl h2
      | exact absurd rfl h3
      | exact absurd rfl h4
      | exact absurd rfl h5
      | exact absurd rfl h6

/-- Witness for C8: the `dict` class, not one of the six mapped builtins,
maps to object. -/
theorem typeToStr_total_witness :
    typeToStr .dict = "object" :=
  typeToStr_total.2.2.2.2.2.2.2 .dict
    (fun h => TypeMarker.noConfusion h) (fun h => TypeMarker.noConfusion h)
    (fun h => TypeMarker.noConfusion h) (fun h => TypeMarker.noConfusion h)
    (fun h => TypeMarker.noConfusion h) (fun h => TypeMarker.noConfusion h)

/-- C6: with no overrides, the response map's key set is exactly the baseline
400/500 plus the method-conditional codes: GET → 200/400/500,
POST → 201/202/400/500, PUT → 200/202/400/500, DELETE → 202/204/400/500. -/
theorem genResponses_status_sets :
    (genResponses "GET" [] = some (genResponsesBase "GET") ∧
      ∀ c, c ∈ keysOf (genResponsesBase "GET") ↔ c ∈ ["200", "400", "500"]) ∧
    (genResponses "POST" [] = some (genResponsesBase "POST") ∧
      ∀ c, c ∈ keysOf (genResponsesBase "POST") ↔ c ∈ ["201", "202", "400", "500"]) ∧
    (genResponses "PUT" [] = some (genResponsesBase "PUT") ∧
      ∀ c, c ∈ keysOf (genResponsesBase "PUT") ↔ c ∈ ["200", "202", "400", "500"]) ∧
    (genResponses "DELETE" [] = some (genResponsesBase "DELETE") ∧
      ∀ c, c ∈ keysOf (genResponsesBase "DELETE") ↔ c ∈ ["202", "204", "400", "500"]) := by
  refine ⟨⟨rfl, ?_⟩, ⟨rfl, ?_⟩, ⟨rfl, ?_⟩, ⟨rfl, ?_⟩⟩ <;> intro c
  · rw [show keysOf (genResponsesBase "GET") = ["400", "500", "200"] from by decide]
    simp [List.mem_cons]; tauto
  · rw [show keysOf (genResponsesBase "POST") = ["400", "500", "201", "202"] from by decide]
    simp [List.mem_cons]; tauto
  · rw [show keysOf (genResponsesBase "PUT") = ["400", "500", "200", "202"] from by decide]
    simp [List.mem_cons]; tauto
  · rw [show keysOf (genResponsesBase "DELETE") = ["400", "500", "204", "202"] from by decide]
    simp [List.mem_cons]; tauto

/-- Mapping a function that fixes every element of a list is the identity. -/
theorem map_id_of_eq {α : Type} (l : List α) (f : α → α) (h : ∀ a ∈ l, f a = a) :
    l.map f = l := by
  induction l with
  | nil => rfl
  | cons x xs ih =>
    simp only [List.map_cons, h x (by simp)]
    rw [ih fun a ha => h a (by simp [ha])]

/-- A list of non-nested overrides none of which matches any base parameter
name leaves the base list exactly unchanged. -/
theorem addParamInfo_drop (base : List Param) (pis : List PInfo)
    (hn : ∀ p ∈ pis, p.nested = false)
    (hm : ∀ p ∈ pis, ∀ q ∈ base, q.name ≠ p.name) :
    addParamInfo base pis = base := by
  induction pis with
  | nil => simp [addParamInfo]
  | cons p rest ih =>
    cases p with
    | mk nm t d rq nested df npsO =>
      have hnf : nested = false :=
        hn (PInfo.mk nm t d rq nested df npsO) (List.mem_cons_self _ _)
      subst hnf
      have hrest := ih (fun q hq => hn q (List.mem_cons_of_mem _ hq))
        (fun q hq => hm q (List.mem_cons_of_mem _ hq))
      have hne : ∀ q ∈ base, q.name ≠ nm := fun q hq =>
        hm (PInfo.mk nm t d rq false df npsO) (List.mem_cons_self _ _) q hq
      cases npsO with
      | none =>
        have hstep : addParamInfo base (PInfo.mk nm t d rq false df Option.none :: rest) =
            addParamInfo (base.map fun q => if nm = q.name then
              setFromInfo q t d Option.none else q) rest := by
          simp [addParamInfo]
        have hmap : (base.map fun q => if nm = q.name then
            setFromInfo q t d Option.none else q) = base :=
          map_id_of_eq _ _ fun q hq => if_neg (Ne.symm (hne q hq))
        rw [hstep, hmap]; exact hrest
      | some nps =>
        have hstep : addParamInfo base (PInfo.mk nm t d rq false df (some nps) :: rest) =
            addParamInfo (base.map fun q => if nm = q.name then
              setFromInfo q t d (some (addParamInfo [] nps)) else q) rest := by
          simp [addParamInfo]
        have hmap : (base.map fun q => if nm = q.name then
            setFromInfo q t d (some (addParamInfo [] nps)) else q) = base :=
          map_id_of_eq _ _ fun q hq => if_neg (Ne.symm (hne q hq))
        rw [hstep, hmap]; exact hrest

/-- C5: in `_add_param_info`, a non-nested override maps over the base list:
a base parameter with the exact same name has its `type` and `description`
overwritten unconditionally with the override's values (keeping its name,
required flag, default and nested params); if no base parameter matches the
name, the override is silently dropped — the result is exactly the base
list, with no entry added. -/
theorem addParamInfo_non_nested (base : List Param) (nm : String) (t : TypeMarker)
    (d : String) (rq : Bool) (df : Option PyVal) :
    (addParamInfo base [.mk nm t d rq false df Option.none] =
      base.map fun q => if nm = q.name then setFromInfo q t d Option.none else q) ∧
    (∀ q : Param, (setFromInfo q t d Option.none).type = some t ∧
      (setFromInfo q t d Option.none).description = some d ∧
      (setFromInfo q t d Option.none).name = q.name ∧
      (setFromInfo q t d Option.none).required = q.required ∧
      (setFromInfo q t d Option.none).default = q.default ∧
      (setFromInfo q t d Option.none).nested_params = q.nested_params) ∧
    ((∀ q ∈ base, q.name ≠ nm) →
      addParamInfo base [.mk nm t d rq false df Option.none] = base) := by
  refine ⟨?_, ?_, ?_⟩
  · simp [addParamInfo]
  · intro q; cases q; exact ⟨rfl, rfl, rfl, rfl, rfl, rfl⟩
  · intro h
    exact addParamInfo_drop base _ (fun p hp => by simp at hp; subst hp; rfl)
      (fun p hp q hq => by simp at hp; subst hp; exact h q hq)

/-- Witness for C5: a non-matching override is dropped (base returned
unchanged); a matching override overwrites type and description. -/
theorem addParamInfo_non_nested_witness :
    (addParamInfo [Param.mk "a" true Option.none Option.none Option.none Option.none]
       [PInfo.mk "b" .str "d" false false Option.none Option.none] =
     [Param.mk "a" true Option.none Option.none Option.none Option.none]) ∧
    (addParamInfo [Param.mk "b" true Option.none Option.none Option.none Option.none]
       [PInfo.mk "b" .str "d" false false Option.none Option.none] =
     [Param.mk "b" true Option.none (some .str) (some "d") Option.none]) := by
  constructor
  · exact (addParamInfo_non_nested _ "b" .str "d" false Option.none).2.2
      (by intro q hq; simp at hq; subst hq; decide)
  · rw [(addParamInfo_non_nested _ "b" .str "d" false Option.none).1]
    simp [Param.name, setFromInfo]

/-- C9 counterexample: a parameter that is not required and whose `default`
key is absent makes `_gen_params` raise `KeyError` at `param['default']`
(line 248) instead of succeeding: the claim as stated is false. -/
theorem genParams_keyError :
    genParams [.mk "x" false Option.none Option.none Option.none Option.none]
      "query" = Option.none := rfl

/-- C9 (amended): for a parameter that is not required whose `default` key is
*present with value `None`*, `_gen_params` succeeds and marks the entry
`allowEmptyValue`; an absent `default` key raises instead. -/
theorem genParams_allowEmptyValue (p : Param) (loc : String)
    (hreq : p.required = false) (hdef : p.default = some PyVal.none) :
    ∃ kvs, genParams [p] loc = some [J.obj kvs] ∧
      dictGet "allowEmptyValue" kvs = some (J.b true) := by
  cases p with
  | mk nm rq df ty ds np =>
    simp only [Param.required] at hreq
    simp only [Param.default] at hdef
    subst hreq; subst hdef
    cases ds with
    | none =>
      exact ⟨_, rfl, by simp [dictGet]⟩
    | some d =>
      by_cases hd : d = ""
      · subst hd
        exact ⟨_, rfl, by simp [dictGet]⟩
      · refine ⟨[("name", J.s nm), ("in", J.s loc),
          ("schema", J.obj [("type", J.s (match ty with
            | some t => typeToStr t
            | Option.none => genType (Param.mk nm false (some PyVal.none) ty
                (some d) np)))]),
          ("description", J.s d), ("allowEmptyValue", J.b true)], ?_, ?_⟩
        · simp [genParams, genParamOne, Param.required, Param.default,
            Param.description, Param.type, Param.name, hd]
        · simp [dictGet]

/-- Witness for the amended C9. -/
theorem genParams_allowEmptyValue_witness :
    ∃ kvs, genParams [.mk "x" false (some PyVal.none)
        Option.none Option.none Option.none] "query" = some [J.obj kvs] ∧
      dictGet "allowEmptyValue" kvs = some (J.b true) :=
  genParams_allowEmptyValue
    (.mk "x" false (some PyVal.none) Option.none Option.none Option.none)
    "query" rfl rfl

/-- C10 (amended): for a parameter whose explicit type maps to "object" and
that has no nested params, `_gen_schema_for_content` takes the
array-of-element branch unconditionally: it indexes `param['type'][0]`,
producing `{type: array, items: {type: <mapped element>}}` (never a plain
`{type: object}` fragment) whenever the marker is subscriptable — which on
the repository's Python >= 3.9 includes the `dict` class, whose PEP 585
generic alias `dict[0]` maps to items `{type: object}` — and raising
(`Option.none`) only for a non-subscriptable marker, such as a class without
`__class_getitem__`. -/
theorem genSchema_object_marker (t : TypeMarker) (ht : typeToStr t = "object")
    (nm : String) (rq : Bool) (df : Option PyVal) (ds : Option String) :
    (index0 t = Option.none →
      genSchemaForContent (.plain [.mk nm rq df (some t) ds Option.none]) =
        Option.none) ∧
    (∀ el, index0 t = some el →
      ∃ frag, genSchemaProps [.mk nm rq df (some t) ds Option.none] =
          some [(nm, J.obj frag)] ∧
        dictGet "type" frag = some (J.s "array") ∧
        dictGet "items" frag = some (J.obj [("type", J.s (typeToStr el))]) ∧
        dictGet "type" frag ≠ some (J.s "object")) := by
  constructor
  · intro h
    simp [genSchemaForContent, genSchemaProps, ht, h]
  · intro el h
    cases ds with
    | none =>
      cases df with
      | none =>
        refine ⟨[("type", J.s "array"),
          ("items", J.obj [("type", J.s (typeToStr el))])], ?_, ?_, ?_, ?_⟩
        · simp [genSchemaProps, ht, h, dictSet]
        · simp [dictGet]
        · simp [dictGet]
        · simp [dictGet]
      | some v =>
        refine ⟨[("type", J.s "array"),
          ("items", J.obj [("type", J.s (typeToStr el))]),
          ("default", pyToJ v)], ?_, ?_, ?_, ?_⟩
        · simp [genSchemaProps, ht, h, dictSet]
        · simp [dictGet]
        · simp [dictGet]
        · simp [dictGet]
    | some d =>
      cases df with
      | none =>
        refine ⟨[("type", J.s "array"),
          ("items", J.obj [("type", J.s (typeToStr el))]),
          ("description", J.s d)], ?_, ?_, ?_, ?_⟩
        · simp [genSchemaProps, ht, h, dictSet]
        · simp [dictGet]
        · simp [dictGet]
        · simp [dictGet]
      | some v =>
        refine ⟨[("type", J.s "array"),
          ("items", J.obj [("type", J.s (typeToStr el))]),
          ("description", J.s d), ("default", pyToJ v)], ?_, ?_, ?_, ?_⟩
        · simp [genSchemaProps, ht, h, dictSet]
        · simp [dictGet]
        · simp [dictGet]
        · simp [dictGet]

/-- Lexicographic comparison is total. -/
theorem charsLe_total (a : List Char) : ∀ b, charsLe a b = true ∨ charsLe b a = true := by
  induction a with
  | nil => intro b; left; rfl
  | cons x as ih =>
    intro b
    cases b with
    | nil => right; rfl
    | cons y bs =>
      by_cases hxy : x = y
      · subst hxy
        rcases ih bs with h | h
        · left; simp [charsLe, h]
        · right; simp [charsLe, h]
      · rcases lt_or_gt_of_ne hxy with h | h
        · left; simp [charsLe, hxy, h]
        · right; simp [charsLe, Ne.symm hxy, h]

/-- Lexicographic comparison is transitive. -/
theorem charsLe_trans (a : List Char) : ∀ b c, charsLe a b = true →
    charsLe b c = true → charsLe a c = true := by
  induction a with
  | nil => intro b c _ _; rfl
  | cons x as ih =>
    intro b c hab hbc
    cases b with
    | nil => simp [charsLe] at hab
    | cons y bs =>
      cases c with
      | nil => simp [charsLe] at hbc
      | cons z cs =>
        by_cases hxy : x = y <;> by_cases hyz : y = z
        · subst hxy; subst hyz
          simp only [charsLe, if_pos rfl] at hab hbc ⊢
          exact ih bs cs hab hbc
        · subst hxy
          simp only [charsLe, if_pos rfl] at hab
          simp only [charsLe, if_neg hyz] at hbc ⊢
          exact hbc
        · subst hyz
          simp only [charsLe, if_neg hxy] at hab ⊢
          exact hab
        · simp only [charsLe, if_neg hxy] at hab
          simp only [charsLe, if_neg hyz] at hbc
          have h1 : x < y := of_decide_eq_true hab
          have h2 : y < z := of_decide_eq_true hbc
          have h3 : x < z := lt_trans h1 h2
          simp [charsLe, ne_of_lt h3, h3]

theorem strLe_total (a b : String) : strLe a b = true ∨ strLe b a = true :=
  charsLe_total a.toList b.toList

theorem strLe_trans (a b c : String) (h1 : strLe a b = true) (h2 : strLe b c = true) :
    strLe a c = true :=
  charsLe_trans a.toList b.toList c.toList h1 h2

/-- Membership in an insertion. -/
theorem mem_insertSorted {α : Type} (le : α → α → Bool) (x : α) (l : List α) (y : α) :
    y ∈ insertSorted le x l ↔ y = x ∨ y ∈ l := by
  induction l with
  | nil => simp [insertSorted]
  | cons z zs ih =>
    simp only [insertSorted]
    split
    · simp [List.mem_cons]
    · simp only [List.mem_cons, ih]
      tauto

/-- Inserting into a sorted list keeps it sorted (given totality and
transitivity of the comparison). -/
theorem insertSorted_sorted {α : Type} (le : α → α → Bool)
    (htot : ∀ a b, le a b = true ∨ le b a = true)
    (htrans : ∀ a b c, le a b = true → le b c = true → le a c = true)
    (x : α) (l : List α)
    (h : List.Pairwise (fun a b => le a b = true) l) :
    List.Pairwise (fun a b => le a b = true) (insertSorted le x l) := by
  induction l with
  | nil => simp [insertSorted]
  | cons z zs ih =>
    rw [List.pairwise_cons] at h
    obtain ⟨hz, hzs⟩ := h
    simp only [insertSorted]
    split
    case isTrue hxz =>
      rw [List.pairwise_cons]
      refine ⟨?_, List.pairwise_cons.2 ⟨hz, hzs⟩⟩
      intro y hy
      rcases List.mem_cons.1 hy with rfl | hy'
      · exact hxz
      · exact htrans x z y hxz (hz y hy')
    case isFalse hxz =>
      rw [List.pairwise_cons]
      refine ⟨?_, ih hzs⟩
      intro y hy
      rcases (mem_insertSorted le x zs y).1 hy with rfl | hy'
      · rcases htot y z with h' | h'
        · exact absurd h' hxz
        · exact h'
      · exact hz y hy'

/-- `sortBy` produces a sorted list. -/
theorem sortBy_sorted {α : Type} (le : α → α → Bool)
    (htot : ∀ a b, le a b = true ∨ le b a = true)
    (htrans : ∀ a b c, le a b = true → le b c = true → le a c = true)
    (l : List α) :
    List.Pairwise (fun a b => le a b = true) (sortBy le l) := by
  induction l with
  | nil => simp [sortBy]
  | cons x xs ih =>
    exact insertSorted_sorted le htot htrans x _ ih

/-- C7: tag description resolution is order-independent between empty and
non-empty descriptions: two controllers claiming the same tag name, one with
an empty and one with a non-empty description, yield that tag with the
non-empty description in either processing order; and the returned tag list
is always sorted by name ascending. -/
theorem genTags_order_independent (c1 c2 : Ctrl) (d : String)
    (hn : tagEntryName c1 = tagEntryName c2)
    (h1 : tagEntryDescr c1 = "") (h2 : tagEntryDescr c2 = d) (hd : d ≠ "") :
    dictGet (tagEntryName c2) (genTags [c1, c2]) = some d ∧
    dictGet (tagEntryName c2) (genTags [c2, c1]) = some d ∧
    ∀ ctrls : List Ctrl,
      List.Pairwise (fun a b => strLe a.1 b.1 = true) (genTags ctrls) := by
  refine ⟨?_, ?_, ?_⟩
  · have e1 : buildTagMap [c1, c2] [] = [(tagEntryName c2, d)] := by
      simp [buildTagMap, dictGet, dictSet, h1, h2, hn]
    simp [genTags, e1, hd, sortBy, insertSorted, dictGet]
  · have e1 : buildTagMap [c2, c1] [] = [(tagEntryName c2, d)] := by
      simp [buildTagMap, dictGet, dictSet, h1, h2, hn, hd]
    simp [genTags, e1, hd, sortBy, insertSorted, dictGet]
  · intro ctrls
    exact sortBy_sorted (fun a b => strLe a.1 b.1)
      (fun (a b : String × String) => strLe_total a.1 b.1)
      (fun (a b c : String × String) hab hbc => strLe_trans a.1 b.1 c.1 hab hbc) _

/-- Witness for C7 at the spec's example: controllers A("auth", "") and
A("auth", "desc") give tag "auth" description "desc" in either order. -/
theorem genTags_order_independent_witness :
    dictGet "auth" (genTags [⟨"A", some ⟨"auth", ""⟩⟩, ⟨"A", some ⟨"auth", "desc"⟩⟩]) =
      some "desc" ∧
    dictGet "auth" (genTags [⟨"A", some ⟨"auth", "desc"⟩⟩, ⟨"A", some ⟨"auth", ""⟩⟩]) =
      some "desc" :=
  ⟨(genTags_order_independent ⟨"A", some ⟨"auth", ""⟩⟩ ⟨"A", some ⟨"auth", "desc"⟩⟩
      "desc" rfl rfl rfl (by decide)).1,
   (genTags_order_independent ⟨"A", some ⟨"auth", ""⟩⟩ ⟨"A", some ⟨"auth", "desc"⟩⟩
      "desc" rfl rfl rfl (by decide)).2.1⟩

/-- C10 counterexample to the claim as stated: on the repository's required
Python >= 3.9 the `dict` class is subscriptable (PEP 585), so for a parameter
with explicit type `dict` schema building does NOT raise — it degrades
gracefully to the fragment `{type: array, items: {type: object}}`. -/
theorem genSchema_dict_counterexample :
    genSchemaForContent (.plain [.mk "x" false Option.none
      (some TypeMarker.dict) Option.none Option.none]) =
    some (J.obj [("type", J.s "object"),
      ("properties", J.obj [("x", J.obj [("type", J.s "array"),
        ("items", J.obj [("type", J.s "object")])])])]) := by
  simp [genSchemaForContent, genSchemaProps, schemaDict, requiredNames,
    typeToStr, index0, Param.required, Param.name]

/-- Witness for the amended C10: a class without `__class_getitem__` raises;
the `[int]`-style marker becomes array-of-integer; the `dict` class marker
becomes array with items of type object instead of raising. -/
theorem genSchema_object_marker_witness :
    (genSchemaForContent (.plain [.mk "x" false Option.none
      (some (.other "MyModel")) Option.none Option.none]) = Option.none) ∧
    (∃ frag, genSchemaProps [.mk "y" false Option.none (some (.seq [.int]))
        Option.none Option.none] = some [("y", J.obj frag)] ∧
      dictGet "type" frag = some (J.s "array") ∧
      dictGet "items" frag = some (J.obj [("type", J.s (typeToStr .int))]) ∧
      dictGet "type" frag ≠ some (J.s "object")) ∧
    ∃ frag, genSchemaProps [.mk "z" false Option.none (some TypeMarker.dict)
        Option.none Option.none] = some [("z", J.obj frag)] ∧
      dictGet "type" frag = some (J.s "array") ∧
      dictGet "items" frag = some (J.obj [("type", J.s (typeToStr .genericAlias))]) ∧
      dictGet "type" frag ≠ some (J.s "object") :=
  ⟨(genSchema_object_marker (.other "MyModel") rfl "x" false Option.none
      Option.none).1 rfl,
   (genSchema_object_marker (.seq [.int]) rfl "y" false Option.none Option.none).2
      .int rfl,
   (genSchema_object_marker .dict rfl "z" false Option.none Option.none).2
      .genericAlias rfl⟩

/-- C2: for a POST/PUT endpoint with non-empty body params and non-empty
query params, the emitted operation object contains exactly one
`requestBody`, and it is the one assembled last: the request body built from
the (merged, twice) query-parameter descriptors, not the body-parameter one. -/
theorem procOne_requestBody_query_wins (e : Endpoint)
    (hm : (["post", "put"].contains (pyLower e.method)) = true)
    (hb : e.body_params.isEmpty = false) (hq : e.query_params.isEmpty = false)
    (op : J) (e' : Endpoint) (h : procOne e = some (op, e')) :
    ∃ kvs sch,
      op = J.obj kvs ∧
      genSchemaForContent (.plain (addParamInfo
        (addParamInfo e.query_params (docParams e.func)) (docParams e.func))) =
        some sch ∧
      dictGet "requestBody" kvs = some (reqBodyJ sch) ∧
      countKey "requestBody" kvs = 1 := by
  simp only [procOne] at h
  cases hps : stepParams e.path_params (docParams e.func) "path" with
  | none => rw [hps] at h; exact absurd h (by simp)
  | some pr =>
    rw [hps] at h
    obtain ⟨pathJ, ppNew⟩ := pr
    cases hqs : stepParams e.query_params (docParams e.func) "query" with
    | none => rw [hqs] at h; exact absurd h (by simp)
    | some qr =>
      rw [hqs] at h
      obtain ⟨queryJ, qpNew⟩ := qr
      have hqpNew : qpNew = addParamInfo e.query_params (docParams e.func) := by
        have h2 := hqs
        simp only [stepParams, hq] at h2
        cases hg : genParams (addParamInfo e.query_params (docParams e.func)) "query" with
        | none => rw [hg] at h2; simp at h2
        | some l => rw [hg] at h2; simp at h2; exact h2.2.symm
      have hqpE : qpNew.isEmpty = false := by
        rw [hqpNew]; exact addParamInfo_isEmpty_false _ _ hq
      cases hrs : genResponses e.method (docResponse e.func) with
      | none => rw [hrs] at h; exact absurd h (by simp)
      | some responses =>
        rw [hrs] at h
        dsimp only at h
        rw [if_pos hm] at h
        rw [hb] at h
        simp only [Bool.not_false, if_true] at h
        cases hbps : e.func.body_params_schema
        · rw [hbps] at h
          simp only [Bool.false_eq_true, if_false] at h
          cases hbs : genSchemaForContent (.plain
              (addParamInfo e.body_params (docParams e.func))) with
          | none => rw [hbs] at h; exact absurd h (by simp)
          | some sch0 =>
            rw [hbs] at h
            rw [hqpE] at h
            simp only [Bool.not_false, if_true] at h
            cases hfs : genSchemaForContent (.plain
                (addParamInfo qpNew (docParams e.func))) with
            | none => rw [hfs] at h; exact absurd h (by simp)
            | some sch =>
              rw [hfs] at h
              simp only [Option.some_inj, Prod.mk.injEq] at h
              obtain ⟨hop, _⟩ := h
              refine ⟨_, sch, hop.symm, ?_, dictGet_dictSet _ _ _, ?_⟩
              · rw [← hqpNew]; exact hfs
              · by_cases hsum : docSummary e.func ≠ ""
                · rw [if_pos hsum]
                  rw [countKey_dictSet, countKey_dictSet,
                    countKey_dictSet_other "requestBody" "summary" (by decide)]
                  simp [countKey, List.filter_cons]
                · rw [if_neg hsum]
                  rw [countKey_dictSet, countKey_dictSet]
                  simp [countKey, List.filter_cons]
        · rw [hbps] at h
          simp only [if_true] at h
          cases hbs : genSchemaForContent (.plain
              (pinfoListToParams (docParams e.func))) with
          | none => rw [hbs] at h; exact absurd h (by simp)
          | some sch0 =>
            rw [hbs] at h
            rw [hqpE] at h
            simp only [Bool.not_false, if_true] at h
            cases hfs : genSchemaForContent (.plain
                (addParamInfo qpNew (docParams e.func))) with
            | none => rw [hfs] at h; exact absurd h (by simp)
            | some sch =>
              rw [hfs] at h
              simp only [Option.some_inj, Prod.mk.injEq] at h
              obtain ⟨hop, _⟩ := h
              refine ⟨_, sch, hop.symm, ?_, dictGet_dictSet _ _ _, ?_⟩
              · rw [← hqpNew]; exact hfs
              · by_cases hsum : docSummary e.func ≠ ""
                · rw [if_pos hsum]
                  rw [countKey_dictSet, countKey_dictSet,
                    countKey_dictSet_other "requestBody" "summary" (by decide)]
                  simp [countKey, List.filter_cons]
                · rw [if_neg hsum]
                  rw [countKey_dictSet, countKey_dictSet]
                  simp [countKey, List.filter_cons]

/-- Witness for C2: the concrete POST endpoint above. -/
theorem c2witness :
    ∃ op e', procOne c2Endpoint = some (op, e') ∧
      ∃ kvs sch, op = J.obj kvs ∧
        genSchemaForContent (.plain (addParamInfo
          (addParamInfo c2Endpoint.query_params (docParams c2Endpoint.func))
          (docParams c2Endpoint.func))) = some sch ∧
        dictGet "requestBody" kvs = some (reqBodyJ sch) ∧
        countKey "requestBody" kvs = 1 := by
  have hpl : pyLower "POST" = "post" := by decide
  have hsome : (procOne c2Endpoint).isSome = true := by
    simp [procOne, c2Endpoint, stepParams, addParamInfo, genParams, genParamOne,
      genType, hasPre, hasSub, genResponses, respOverlay, genResponsesBase,
      respBase, dictSet, dictGet, genSchemaForContent, genSchemaProps,
      requiredNames, schemaDict, docParams, docSummary, docResponse, getTag,
      hpl, reqBodyJ, optStrJ, typeToStr, pyIsBool, pyIsInt, genericContent,
      Param.required, Param.name, Param.description, Param.default, Param.type,
      Param.nested_params, pyToJ]
  obtain ⟨pr, hpe⟩ := Option.isSome_iff_exists.1 hsome
  exact ⟨pr.1, pr.2, by rw [hpe],
    procOne_requestBody_query_wins c2Endpoint
      (show (["post", "put"].contains (pyLower "POST")) = true by decide)
      rfl rfl pr.1 pr.2 (by rw [hpe])⟩

/-- Membership is preserved by insertion sort. -/
theorem mem_sortBy {α : Type} (le : α → α → Bool) (l : List α) (x : α) :
    x ∈ sortBy le l ↔ x ∈ l := by
  induction l with
  | nil => simp [sortBy]
  | cons y ys ih =>
    simp only [sortBy, List.foldr] at ih ⊢
    rw [mem_insertSorted]
    simp [ih]

/-- Insertion sort permutes its input. -/
theorem insertSorted_perm {α : Type} (le : α → α → Bool) (x : α) (l : List α) :
    List.Perm (insertSorted le x l) (x :: l) := by
  induction l with
  | nil => simp [insertSorted]
  | cons y ys ih =>
    simp only [insertSorted]
    split
    · exact List.Perm.refl _
    · exact (ih.cons y).trans (List.Perm.swap _ _ _)

theorem sortBy_perm {α : Type} (le : α → α → Bool) (l : List α) :
    List.Perm (sortBy le l) l := by
  induction l with
  | nil => exact List.Perm.refl _
  | cons y ys ih =>
    exact (insertSorted_perm le y (sortBy le ys)).trans (ih.cons y)

/-- A key present after a dict set. -/
theorem mem_keysOf_dictSet {α : Type} (k k' : String) (v : α) (d : List (String × α)) :
    k' ∈ keysOf (dictSet k v d) ↔ k' = k ∨ k' ∈ keysOf d := by
  induction d with
  | nil => simp [keysOf, dictSet]
  | cons kv rest ih =>
    obtain ⟨k0, v0⟩ := kv
    by_cases hk : k0 = k
    · subst hk; simp [keysOf, dictSet]
    · simp only [dictSet, if_neg hk]
      simp only [keysOf, List.map_cons, List.mem_cons] at ih ⊢
      rw [ih]
      tauto

/-- With the include-internal flag unset, a path whose endpoint list contains
an internal-only endpoint is marked skipped. -/
theorem procEndpoints_skip (eps : List Endpoint) : ∀ ms ms' sk rest',
    (∃ e ∈ eps, e.is_backend_api = true) →
    procEndpoints false eps ms = some (ms', sk, rest') → sk = true := by
  induction eps with
  | nil => intro ms ms' sk rest' hex _; simp at hex
  | cons e rest ih =>
    intro ms ms' sk rest' hex h
    cases hbe : e.is_backend_api
    · rw [show procEndpoints false (e :: rest) ms =
          (match procOne e with
           | Option.none => Option.none
           | some (op, e') =>
             match procEndpoints false rest (dictSet (pyLower e.method) op ms) with
             | Option.none => Option.none
             | some (ms2, sk2, rest2) => some (ms2, sk2, e' :: rest2)) from by
        simp [procEndpoints, hbe]] at h
      cases hpo : procOne e with
      | none => rw [hpo] at h; exact absurd h (by simp)
      | some pr =>
        rw [hpo] at h
        obtain ⟨op, e'⟩ := pr
        dsimp only at h
        cases hpe : procEndpoints false rest (dictSet (pyLower e.method) op ms) with
        | none => rw [hpe] at h; exact absurd h (by simp)
        | some tr =>
          rw [hpe] at h
          obtain ⟨ms2, sk2, rest2⟩ := tr
          simp only [Option.some_inj, Prod.mk.injEq] at h
          obtain ⟨-, hsk, -⟩ := h
          obtain ⟨e0, he0, hb0⟩ := hex
          rcases List.mem_cons.1 he0 with rfl | hmem
          · rw [hbe] at hb0; exact absurd hb0 (by simp)
          · rw [← hsk]; exact ih _ _ _ _ ⟨e0, hmem, hb0⟩ hpe
    · rw [show procEndpoints false (e :: rest) ms = some (ms, true, e :: rest) from by
        simp [procEndpoints, hbe]] at h
      simp only [Option.some_inj, Prod.mk.injEq] at h
      exact h.2.1.symm

/-- With the include-internal flag set, no path is ever skipped. -/
theorem procEndpoints_no_skip (eps : List Endpoint) : ∀ ms ms' sk rest',
    procEndpoints true eps ms = some (ms', sk, rest') → sk = false := by
  induction eps with
  | nil =>
    intro ms ms' sk rest' h
    simp only [procEndpoints, Option.some_inj, Prod.mk.injEq] at h
    exact h.2.1.symm
  | cons e rest ih =>
    intro ms ms' sk rest' h
    rw [show procEndpoints true (e :: rest) ms =
        (match procOne e with
         | Option.none => Option.none
         | some (op, e') =>
           match procEndpoints true rest (dictSet (pyLower e.method) op ms) with
           | Option.none => Option.none
           | some (ms2, sk2, rest2) => some (ms2, sk2, e' :: rest2)) from by
      simp [procEndpoints]] at h
    cases hpo : procOne e with
    | none => rw [hpo] at h; exact absurd h (by simp)
    | some pr =>
      rw [hpo] at h
      obtain ⟨op, e'⟩ := pr
      dsimp only at h
      cases hpe : procEndpoints true rest (dictSet (pyLower e.method) op ms) with
      | none => rw [hpe] at h; exact absurd h (by simp)
      | some tr =>
        rw [hpe] at h
        obtain ⟨ms2, sk2, rest2⟩ := tr
        simp only [Option.some_inj, Prod.mk.injEq] at h
        rw [← h.2.1]
        exact ih _ _ _ _ hpe

/-- When no skip happened, the methods dict collects exactly the (lowercased)
methods of the processed endpoints on top of the accumulator. -/
theorem procEndpoints_keys (all : Bool) (eps : List Endpoint) : ∀ ms ms' rest',
    procEndpoints all eps ms = some (ms', false, rest') →
    ∀ k, k ∈ keysOf ms' ↔ k ∈ keysOf ms ∨ k ∈ eps.map (fun e => pyLower e.method) := by
  induction eps with
  | nil =>
    intro ms ms' rest' h k
    simp only [procEndpoints, Option.some_inj, Prod.mk.injEq] at h
    rw [← h.1]
    simp
  | cons e rest ih =>
    intro ms ms' rest' h k
    by_cases hbe : e.is_backend_api && !all
    · rw [show procEndpoints all (e :: rest) ms = some (ms, true, e :: rest) from by
        simp [procEndpoints, hbe]] at h
      simp at h
    · rw [show procEndpoints all (e :: rest) ms =
          (match procOne e with
           | Option.none => Option.none
           | some (op, e') =>
             match procEndpoints all rest (dictSet (pyLower e.method) op ms) with
             | Option.none => Option.none
             | some (ms2, sk2, rest2) => some (ms2, sk2, e' :: rest2)) from by
        simp [procEndpoints, hbe]] at h
      cases hpo : procOne e with
      | none => rw [hpo] at h; exact absurd h (by simp)
      | some pr =>
        rw [hpo] at h
        obtain ⟨op, e'⟩ := pr
        dsimp only at h
        cases hpe : procEndpoints all rest (dictSet (pyLower e.method) op ms) with
        | none => rw [hpe] at h; exact absurd h (by simp)
        | some tr =>
          rw [hpe] at h
          obtain ⟨ms2, sk2, rest2⟩ := tr
          simp only [Option.some_inj, Prod.mk.injEq] at h
          obtain ⟨hms, hsk, -⟩ := h
          have hkeys := ih (dictSet (pyLower e.method) op ms) ms2 rest2 (by rw [hpe, hsk])
          rw [← hms]
          rw [hkeys k, mem_keysOf_dictSet]
          simp only [List.map_cons, List.mem_cons]
          tauto

/-- The output paths of the loop only use keys of the input items. -/
theorem genPathsGo_keys_sub (all : Bool) (l : List (String × List Endpoint)) :
    ∀ ps reg', genPathsGo all l = some (ps, reg') →
    ∀ k, k ∈ keysOf ps → k ∈ keysOf l := by
  induction l with
  | nil =>
    intro ps reg' h k hk
    simp only [genPathsGo, Option.some_inj, Prod.mk.injEq] at h
    rw [← h.1] at hk
    exact absurd hk (by simp [keysOf])
  | cons item rest ih =>
    intro ps reg' h k hk
    obtain ⟨p0, eps0⟩ := item
    rw [show genPathsGo all ((p0, eps0) :: rest) =
        (match procEndpoints all (sortBy methodLe eps0) [] with
         | Option.none => Option.none
         | some (methods, skip, eps') =>
           match genPathsGo all rest with
           | Option.none => Option.none
           | some (paths, rest') =>
             some ((if skip then paths else (p0, J.obj methods) :: paths),
                   (p0, eps') :: rest')) from by
      simp [genPathsGo]] at h
    cases hpe : procEndpoints all (sortBy methodLe eps0) [] with
    | none => rw [hpe] at h; exact absurd h (by simp)
    | some tr =>
      rw [hpe] at h
      obtain ⟨methods, skip, eps'⟩ := tr
      dsimp only at h
      cases hgo : genPathsGo all rest with
      | none => rw [hgo] at h; exact absurd h (by simp)
      | some pr =>
        rw [hgo] at h
        obtain ⟨paths, rest'⟩ := pr
        simp only [Option.some_inj, Prod.mk.injEq] at h
        obtain ⟨hps, -⟩ := h
        rw [← hps] at hk
        cases skip with
        | true =>
          simp only [if_true] at hk
          exact List.mem_cons_of_mem _ (ih paths rest' hgo k hk)
        | false =>
          simp only [Bool.false_eq_true, if_false] at hk
          simp only [keysOf, List.map_cons, List.mem_cons] at hk ⊢
          rcases hk with h1 | h2
          · exact Or.inl h1
          · exact Or.inr (ih paths rest' hgo k h2)

/-- With the flag unset, a path one of whose endpoints is internal-only is
absent from the loop output. -/
theorem genPathsGo_drop (l : List (String × List Endpoint)) :
    ∀ ps reg', genPathsGo false l = some (ps, reg') →
    (keysOf l).Nodup →
    ∀ path eps, (path, eps) ∈ l →
    (∃ e ∈ eps, e.is_backend_api = true) →
    path ∉ keysOf ps := by
  induction l with
  | nil => intro ps reg' _ _ path eps hmem; simp at hmem
  | cons item rest ih =>
    intro ps reg' h hnd path eps hmem hback
    obtain ⟨p0, eps0⟩ := item
    rw [show genPathsGo false ((p0, eps0) :: rest) =
        (match procEndpoints false (sortBy methodLe eps0) [] with
         | Option.none => Option.none
         | some (methods, skip, eps') =>
           match genPathsGo false rest with
           | Option.none => Option.none
           | some (paths, rest') =>
             some ((if skip then paths else (p0, J.obj methods) :: paths),
                   (p0, eps') :: rest')) from by
      simp [genPathsGo]] at h
    cases hpe : procEndpoints false (sortBy methodLe eps0) [] with
    | none => rw [hpe] at h; exact absurd h (by simp)
    | some tr =>
      rw [hpe] at h
      obtain ⟨methods, skip, eps'⟩ := tr
      dsimp only at h
      cases hgo : genPathsGo false rest with
      | none => rw [hgo] at h; exact absurd h (by simp)
      | some pr =>
        rw [hgo] at h
        obtain ⟨paths, rest'⟩ := pr
        simp only [Option.some_inj, Prod.mk.injEq] at h
        obtain ⟨hps, -⟩ := h
        simp only [keysOf, List.map_cons, List.nodup_cons] at hnd
        obtain ⟨hp0, hndrest⟩ := hnd
        rcases List.mem_cons.1 hmem with heq | hmemrest
        · have hpath : path = p0 := congrArg Prod.fst heq
          have heps : eps = eps0 := congrArg Prod.snd heq
          subst hpath; subst heps
          have hbsorted : ∃ e ∈ sortBy methodLe eps, e.is_backend_api = true := by
            obtain ⟨e0, he0, hb0⟩ := hback
            exact ⟨e0, (mem_sortBy methodLe eps e0).2 he0, hb0⟩
          have hskip : skip = true := procEndpoints_skip _ _ _ _ _ hbsorted hpe
          subst hskip
          simp only [if_true] at hps
          rw [← hps]
          intro hcontra
          exact hp0 (genPathsGo_keys_sub false rest paths rest' hgo path hcontra)
        · have hpathkey : path ∈ keysOf rest := by
            simp only [keysOf, List.mem_map]
            exact ⟨(path, eps), hmemrest, rfl⟩
          have hne : path ≠ p0 := fun hcon => hp0 (hcon ▸ hpathkey)
          have hnotin : path ∉ keysOf paths := ih paths rest' hgo hndrest path eps hmemrest hback
          rw [← hps]
          cases skip with
          | true => simpa using hnotin
          | false =>
            simp only [Bool.false_eq_true, if_false, keysOf, List.map_cons, List.mem_cons]
            intro hcon
            rcases hcon with h1 | h2
            · exact hne h1
            · exact hnotin h2

/-- With the flag set, every registered path appears with exactly the methods
of its endpoints. -/
theorem genPathsGo_keep (l : List (String × List Endpoint)) :
    ∀ ps reg', genPathsGo true l = some (ps, reg') →
    (keysOf l).Nodup →
    ∀ path eps, (path, eps) ∈ l →
    ∃ ms, dictGet path ps = some (J.obj ms) ∧
      ∀ m, m ∈ keysOf ms ↔ m ∈ eps.map (fun e => pyLower e.method) := by
  induction l with
  | nil => intro ps reg' _ _ path eps hmem; simp at hmem
  | cons item rest ih =>
    intro ps reg' h hnd path eps hmem
    obtain ⟨p0, eps0⟩ := item
    rw [show genPathsGo true ((p0, eps0) :: rest) =
        (match procEndpoints true (sortBy methodLe eps0) [] with
         | Option.none => Option.none
         | some (methods, skip, eps') =>
           match genPathsGo true rest with
           | Option.none => Option.none
           | some (paths, rest') =>
             some ((if skip then paths else (p0, J.obj methods) :: paths),
                   (p0, eps') :: rest')) from by
      simp [genPathsGo]] at h
    cases hpe : procEndpoints true (sortBy methodLe eps0) [] with
    | none => rw [hpe] at h; exact absurd h (by simp)
    | some tr =>
      rw [hpe] at h
      obtain ⟨methods, skip, eps'⟩ := tr
      dsimp only at h
      cases hgo : genPathsGo true rest with
      | none => rw [hgo] at h; exact absurd h (by simp)
      | some pr =>
        rw [hgo] at h
        obtain ⟨paths, rest'⟩ := pr
        simp only [Option.some_inj, Prod.mk.injEq] at h
        obtain ⟨hps, -⟩ := h
        have hskip : skip = false := procEndpoints_no_skip _ _ _ _ _ hpe
        subst hskip
        simp only [Bool.false_eq_true, if_false] at hps
        simp only [keysOf, List.map_cons, List.nodup_cons] at hnd
        obtain ⟨hp0, hndrest⟩ := hnd
        rcases List.mem_cons.1 hmem with heq | hmemrest
        · have hpath : path = p0 := congrArg Prod.fst heq
          have heps : eps = eps0 := congrArg Prod.snd heq
          subst hpath; subst heps
          refine ⟨methods, ?_, ?_⟩
          · rw [← hps]; simp [dictGet]
          · intro m
            rw [procEndpoints_keys true _ _ _ _ (by rw [hpe]) m]
            constructor
            · intro hm
              rcases hm with hm | hm
              · exact absurd hm (by simp [keysOf])
              · rcases List.mem_map.1 hm with ⟨e0, he0, hme⟩
                exact List.mem_map.2 ⟨e0, (mem_sortBy methodLe eps e0).1 he0, hme⟩
            · intro hm
              rcases List.mem_map.1 hm with ⟨e0, he0, hme⟩
              exact Or.inr (List.mem_map.2 ⟨e0, (mem_sortBy methodLe eps e0).2 he0, hme⟩)
        · have hpathkey : path ∈ keysOf rest := by
            simp only [keysOf, List.mem_map]
            exact ⟨(path, eps), hmemrest, rfl⟩
          have hne : path ≠ p0 := fun hcon => hp0 (hcon ▸ hpathkey)
          obtain ⟨ms, hms, hkeys⟩ := ih paths rest' hgo hndrest path eps hmemrest
          refine ⟨ms, ?_, hkeys⟩
          rw [← hps]
          simp [dictGet, Ne.symm hne]
          exact hms

/-- C3: for a registered path with an internal-only endpoint, the entire path
is absent from the public paths map (flag unset) and present with all of its
methods in the full map (flag set). -/
theorem genPaths_backend_filter (reg : List (String × List Endpoint))
    (hnd : (keysOf reg).Nodup) (path : String) (eps : List Endpoint)
    (hmem : (path, eps) ∈ reg)
    (hback : ∃ e ∈ eps, e.is_backend_api = true)
    (ps0 : List (String × J)) (reg0 : List (String × List Endpoint))
    (ps1 : List (String × J)) (reg1 : List (String × List Endpoint))
    (h0 : genPaths false reg = some (ps0, reg0))
    (h1 : genPaths true reg = some (ps1, reg1)) :
    path ∉ keysOf ps0 ∧
    ∃ ms, dictGet path ps1 = some (J.obj ms) ∧
      ∀ m, m ∈ keysOf ms ↔ m ∈ eps.map (fun e => pyLower e.method) := by
  simp only [genPaths] at h0 h1
  have hperm := sortBy_perm (fun a b => strLe a.1 b.1) reg
  have hsnd : (keysOf (sortBy (fun a b => strLe a.1 b.1) reg)).Nodup :=
    ((hperm.map Prod.fst).nodup_iff).2 hnd
  have hmem' : (path, eps) ∈ sortBy (fun a b => strLe a.1 b.1) reg :=
    (mem_sortBy _ reg _).2 hmem
  exact ⟨genPathsGo_drop _ ps0 reg0 h0 hsnd path eps hmem' hback,
    genPathsGo_keep _ ps1 reg1 h1 hsnd path eps hmem'⟩

/-- Witness for C3: a path with a public GET and an internal POST is wholly
absent from the public document and present with both methods in the full
document. -/
theorem genPaths_backend_filter_witness :
    ∃ ps0 reg0 ps1 reg1,
      genPaths false c3Reg = some (ps0, reg0) ∧
      genPaths true c3Reg = some (ps1, reg1) ∧
      "/x" ∉ keysOf ps0 ∧
      ∃ ms, dictGet "/x" ps1 = some (J.obj ms) ∧
        "get" ∈ keysOf ms ∧ "post" ∈ keysOf ms := by
  have hs0 : (genPaths false c3Reg).isSome = true := by
    simp [genPaths, genPathsGo, c3Reg, c3Get, c3Post, sortBy, insertSorted,
      strLe, charsLe, methodLe, idxOf, methodOrder, procEndpoints, procOne,
      stepParams, addParamInfo, genParams, genParamOne, genType, genResponses,
      respOverlay, genResponsesBase, respBase, dictSet, dictGet, docSummary,
      docResponse, docParams, getTag, pyLower, optStrJ, hasPre, hasSub,
      Param.required, Param.name, Param.description, Param.default, Param.type]
  have hs1 : (genPaths true c3Reg).isSome = true := by
    simp [genPaths, genPathsGo, c3Reg, c3Get, c3Post, sortBy, insertSorted,
      strLe, charsLe, methodLe, idxOf, methodOrder, procEndpoints, procOne,
      stepParams, addParamInfo, genParams, genParamOne, genType, genResponses,
      respOverlay, genResponsesBase, respBase, dictSet, dictGet, docSummary,
      docResponse, docParams, getTag, pyLower, optStrJ, hasPre, hasSub,
      Param.required, Param.name, Param.description, Param.default, Param.type]
  obtain ⟨pr0, h0⟩ := Option.isSome_iff_exists.1 hs0
  obtain ⟨pr1, h1⟩ := Option.isSome_iff_exists.1 hs1
  have hmain := genPaths_backend_filter c3Reg (by simp [c3Reg, keysOf])
    "/x" [c3Get, c3Post] (by simp [c3Reg]) ⟨c3Post, by simp, rfl⟩
    pr0.1 pr0.2 pr1.1 pr1.2 (by rw [h0]) (by rw [h1])
  obtain ⟨hnot, ms, hdict, hkeys⟩ := hmain
  exact ⟨pr0.1, pr0.2, pr1.1, pr1.2, by rw [h0], by rw [h1], hnot,
    ms, hdict, (hkeys "get").2 (by decide), (hkeys "post").2 (by decide)⟩


/-- C1 (refuted; code bug): generating the paths document does NOT leave the
endpoint registry unchanged.  `_add_param_info` mutates the endpoint's
parameter lists in place: a nested override is appended to
`endpoint.path_params` on every call, so the registry's list grows from 1 to
2 entries across one call, and a second call produces a different document
(3 parameters instead of 2). -/
theorem genPaths_mutates_registry :
    c1Run1.isSome = true ∧ c1Run2.isSome = true ∧
    regPathParamsLen c1Reg "/p" = 1 ∧
    regPathParamsLen c1Reg1 "/p" = 2 ∧
    opParamsLen c1Doc1 "/p" "get" = 2 ∧
    opParamsLen c1Doc2 "/p" "get" = 3 := by
  refine ⟨?_, ?_, ?_, ?_, ?_, ?_⟩ <;>
    simp [c1Run1, c1Run2, c1Reg1, c1Doc1, c1Doc2, c1Reg, c1Endpoint, c1Param,
      c1Nested, genPaths, genPathsGo, sortBy, insertSorted, strLe, charsLe,
      methodLe, idxOf, methodOrder, procEndpoints, procOne, stepParams,
      addParamInfo, setFromInfo, genParams, genParamOne, genType, genResponses,
      respOverlay, genResponsesBase, respBase, dictSet, dictGet, docSummary,
      docResponse, docParams, getTag, pyLower, optStrJ, hasPre, hasSub,
      opParamsLen, regPathParamsLen, Param.required, Param.name,
      Param.description, Param.default, Param.type, Param.nested_params,
      pyIsBool, pyIsInt, keysOf]

end CephNvmeofDoc
